import Mathlib

/-!
Verification of the Budget-Tracking repository.

The development shallowly embeds the client page
(src/app/api/expenses/route.ts, third document: the budget page component),
the expenses API route (first document) and the income API route
(src/unnamed/part_000).  JavaScript numbers are modelled by `JsNum`:
either a finite value, represented exactly as a rational, or one of the
non-finite values NaN, +Infinity, -Infinity.  Record amounts that the
code has already coerced to finite numbers are modelled directly as
rationals.
-/

namespace Budget

/-- Model of a JavaScript number: a finite value (an exact rational) or one
of the non-finite values NaN, positive infinity, negative infinity. -/
inductive JsNum where
  | fin (q : ℚ)
  | nan
  | posInf
  | negInf
deriving DecidableEq, Repr

/-- Model of Number.isFinite: true exactly on finite values. -/
def JsNum.isFinite : JsNum → Bool
  | JsNum.fin _ => true
  | _ => false

/-- Embedding of krwToUsd (page, lines 479-483):
normalizedRate = Number(rate); if !Number.isFinite(normalizedRate) or
normalizedRate <= 0, return 0; otherwise return krw / normalizedRate.
The KRW argument is a finite number at every call site, so it is a rational.
Division is exact: the function applies no rounding. -/
def krwToUsd (krw : ℚ) (rate : JsNum) : ℚ :=
  match rate with
  | JsNum.fin r => if r ≤ 0 then 0 else krw / r
  | _ => 0

/-- An income row as held in client state: id, date, desc, amount, notes. -/
structure IncomeRow where
  id : String
  date : String
  desc : String
  amount : ℚ
  notes : String
deriving DecidableEq, Repr

/-- An expense row as held in client state: income fields plus category. -/
structure ExpenseRow where
  id : String
  date : String
  category : String
  desc : String
  amount : ℚ
  notes : String
deriving DecidableEq, Repr

/-- JavaScript `a || 0` on a finite number: 0 is falsy, everything else is
returned unchanged (hence the identity on rationals, kept for fidelity). -/
def amtOrZero (a : ℚ) : ℚ :=
  if a = 0 then 0 else a

/-- Embedding of the income side of the totals fold (page, line 700):
income.reduce((s, r) => s + Number(r.amount || 0), 0). -/
def totalsIncomeKRW (rows : List IncomeRow) : ℚ :=
  rows.foldl (fun s r => s + amtOrZero r.amount) 0

/-- Embedding of the expense side of the totals fold (page, line 701):
expenses.reduce((s, r) => s + Number(r.amount || 0), 0). -/
def totalsExpenseKRW (rows : List ExpenseRow) : ℚ :=
  rows.foldl (fun s r => s + amtOrZero r.amount) 0

/-- One step of the breakdown fold (page, line 713):
byCat[e.category] = (byCat[e.category] || 0) + Number(e.amount || 0).
A fresh key is appended at the end, matching JS object insertion order. -/
def addToCat (m : List (String × ℚ)) (c : String) (a : ℚ) : List (String × ℚ) :=
  match m with
  | [] => [(c, a)]
  | (k, v) :: rest => if k = c then (k, v + a) :: rest else (k, v) :: addToCat rest c a

/-- Embedding of the breakdown memo (page, lines 711-715): fold the expense
rows into a category-keyed map of summed amounts. -/
def breakdown (rows : List ExpenseRow) : List (String × ℚ) :=
  rows.foldl (fun m e => addToCat m e.category (amtOrZero e.amount)) []

/-- Lookup in the breakdown map; absent keys read as 0, matching
`breakdown[cat] || 0` (page, line 1131). -/
def lookupCat (m : List (String × ℚ)) (c : String) : ℚ :=
  match m with
  | [] => 0
  | (k, v) :: rest => if k = c then v else lookupCat rest c

/-- Sum of the values of a category map. -/
def sumVals (m : List (String × ℚ)) : ℚ :=
  (m.map Prod.snd).sum

/-- JavaScript `x || 1` on a finite number: 0 is falsy and becomes 1. -/
def orOne (q : ℚ) : ℚ :=
  if q = 0 then 1 else q

/-- Embedding of the percentage shown in the breakdown table (page,
line 1132): pct = (amt / (totals.expenseKRW || 1)) * 100 with
amt = breakdown[cat] || 0. -/
def pctOf (rows : List ExpenseRow) (c : String) : ℚ :=
  lookupCat (breakdown rows) c / orOne (totalsExpenseKRW rows) * 100

/-- A record as it appears in a parsed JSON import document.  Every field may
be absent (none); a present string field may still be empty, which JavaScript
treats as falsy.  JSON numbers are finite, hence rationals. -/
structure JsonRec where
  id : Option String
  date : Option String
  category : Option String
  desc : Option String
  amount : Option ℚ
  notes : Option String
deriving DecidableEq, Repr

/-- JavaScript `s || d` for an optional string field: absent and empty are
falsy and yield the default. -/
def jsStrOr (o : Option String) (d : String) : String :=
  match o with
  | none => d
  | some s => if s = "" then d else s

/-- JavaScript Number(n.amount || 0) for an optional JSON number: absent and
0 are falsy and yield 0; any other finite number passes through. -/
def jsAmtOr0 (o : Option ℚ) : ℚ :=
  match o with
  | none => 0
  | some q => if q = 0 then 0 else q

/-- Embedding of the per-record income coercion in the import routine (page,
line 891): id: n.id || uid(), date: n.date || "", desc: n.desc || "",
amount: Math.max(0, Number(n.amount || 0)), notes: n.notes || "". -/
def importIncomeRec (fresh : String) (n : JsonRec) : IncomeRow :=
  { id := jsStrOr n.id fresh
    date := jsStrOr n.date ""
    desc := jsStrOr n.desc ""
    amount := max 0 (jsAmtOr0 n.amount)
    notes := jsStrOr n.notes "" }

/-- Embedding of the per-record expense coercion in the import routine (page,
line 892), which additionally defaults a blank category to Other. -/
def importExpenseRec (fresh : String) (n : JsonRec) : ExpenseRow :=
  { id := jsStrOr n.id fresh
    date := jsStrOr n.date ""
    category := jsStrOr n.category "Other"
    desc := jsStrOr n.desc ""
    amount := max 0 (jsAmtOr0 n.amount)
    notes := jsStrOr n.notes "" }

/-- The import maps over obj.income, calling uid() afresh for each record
missing an id; fresh ids are modelled positionally by fresh : ℕ → String. -/
def importIncomeList (fresh : ℕ → String) : ℕ → List JsonRec → List IncomeRow
  | _, [] => []
  | k, n :: rest => importIncomeRec (fresh k) n :: importIncomeList fresh (k + 1) rest

/-- The import maps over obj.expenses, with positionally modelled fresh ids. -/
def importExpenseList (fresh : ℕ → String) : ℕ → List JsonRec → List ExpenseRow
  | _, [] => []
  | k, n :: rest => importExpenseRec (fresh k) n :: importExpenseList fresh (k + 1) rest

/-- Serialization of an income row into the export document: every field is
present (JSON.stringify of the row object). -/
def exportIncomeRec (r : IncomeRow) : JsonRec :=
  { id := some r.id
    date := some r.date
    category := none
    desc := some r.desc
    amount := some r.amount
    notes := some r.notes }

/-- Serialization of an expense row into the export document. -/
def exportExpenseRec (r : ExpenseRow) : JsonRec :=
  { id := some r.id
    date := some r.date
    category := some r.category
    desc := some r.desc
    amount := some r.amount
    notes := some r.notes }

/-- The client ledger state the import/export and add handlers act on:
income rows, expense rows and the category list. -/
structure ClientState where
  income : List IncomeRow
  expenses : List ExpenseRow
  categories : List String
deriving DecidableEq, Repr

/-- The fixed default category list (page, lines 467-476). -/
def DEFAULT_CATEGORIES : List String :=
  ["Room and Utility", "Daily Expense", "Borrow Others", "Food & Drinks",
   "Transportation", "Entertainment", "Shopping", "Other"]

/-- A parsed import document.  income/expenses are none when the field is
absent or not an array (the Array.isArray checks); categories is none when
absent or not an array. -/
structure ImportDoc where
  version : Option ℚ
  rate : Option JsNum
  exportedAt : Option String
  income : Option (List JsonRec)
  expenses : Option (List JsonRec)
  categories : Option (List String)
deriving DecidableEq, Repr

/-- Embedding of exportJSON (page, lines 863-872): serialize
\x7b version: 1, rate, exportedAt, income, expenses, categories \x7d. -/
def exportJSON (rate : ℚ) (exportedAt : String) (st : ClientState) : ImportDoc :=
  { version := some 1
    rate := some (JsNum.fin rate)
    exportedAt := some exportedAt
    income := some (st.income.map exportIncomeRec)
    expenses := some (st.expenses.map exportExpenseRec)
    categories := some st.categories }

/-- First-occurrence deduplication, the effect of Array.from(new Set(l)). -/
def dedupAux (seen : List String) : List String → List String
  | [] => []
  | x :: xs => if x ∈ seen then dedupAux seen xs else x :: dedupAux (x :: seen) xs

/-- Array.from(new Set(l)) keeps the first occurrence of each element. -/
def dedupFirst (l : List String) : List String :=
  dedupAux [] l

/-- Outcome of an import attempt: failure with the reported message,
user cancellation at the confirm dialog, or success. -/
inductive ImportOutcome where
  | failed (msg : String)
  | cancelled
  | success
deriving DecidableEq, Repr

/-- The explicit category list of the document when it is a non-empty
array, else the fixed defaults (page, line 893). -/
def catBase (o : Option (List String)) : List String :=
  match o with
  | some cs => if cs.length ≠ 0 then cs else DEFAULT_CATEGORIES
  | none => DEFAULT_CATEGORIES

/-- Embedding of the reader.onload body of onFilePicked (page, lines
883-899).  parsed is the result of JSON.parse: Except.error carries the
parse error message.  The shape check (income and expenses must be arrays)
runs before the confirm dialog; any thrown error is caught and reported,
leaving the state unchanged. -/
def onFilePicked (freshI freshE : ℕ → String) (parsed : Except String ImportDoc)
    (confirmReplace : Bool) (st : ClientState) : ClientState × ImportOutcome :=
  match parsed with
  | Except.error msg => (st, ImportOutcome.failed msg)
  | Except.ok obj =>
    match obj.income, obj.expenses with
    | some incs, some exps =>
      if confirmReplace then
        let inc := importIncomeList freshI 0 incs
        let exp := importExpenseList freshE 0 exps
        let cat := catBase obj.categories
        (⟨inc, exp, dedupFirst (cat ++ exp.map ExpenseRow.category)⟩, ImportOutcome.success)
      else (st, ImportOutcome.cancelled)
    | _, _ => (st, ImportOutcome.failed "Invalid format: Missing income/expenses arrays")

/-- JavaScript String.prototype.trim, modelled directly on the character
list: strip whitespace from both ends. -/
def jsTrim (s : String) : String :=
  String.mk
    (((s.data.dropWhile Char.isWhitespace).reverse.dropWhile Char.isWhitespace).reverse)

/-- The income form after Number() has been applied to the amount field:
none models NaN (a non-numeric entry); Number of an empty field is 0. -/
structure IncomeForm where
  date : String
  desc : String
  amount : Option ℚ
  notes : String
deriving DecidableEq, Repr

/-- The expense form, with its category selection. -/
structure ExpenseForm where
  date : String
  category : String
  desc : String
  amount : Option ℚ
  notes : String
deriving DecidableEq, Repr

/-- Math.round on a finite number rounds half toward positive infinity;
NaN propagates. -/
def jsRound (o : Option ℚ) : Option ℤ :=
  match o with
  | none => none
  | some q => some ⌊q + 1 / 2⌋

/-- JavaScript `amount > 0` where amount may be NaN: NaN compares false. -/
def posCheck (o : Option ℤ) : Bool :=
  match o with
  | none => false
  | some z => decide (0 < z)

/-- Outcome of an add-record submission. -/
inductive AddOutcome where
  | validationError
  | serverError
  | added
deriving DecidableEq, Repr

/-- Result of an add-record submission: the new client state, whether the
POST request was issued, and the outcome. -/
structure AddResult where
  state : ClientState
  networkCalled : Bool
  outcome : AddOutcome
deriving Repr

/-- Embedding of onAddIncome (page, lines 742-780).  Validation (non-empty
trimmed date, rounded amount > 0) runs before any network call; on success
the row id := uid(), desc defaults to Income, and the row is appended to
local state only when the server responds ok. -/
def onAddIncome (fresh : String) (serverOk : Bool) (form : IncomeForm)
    (st : ClientState) : AddResult :=
  let date := jsTrim form.date
  let desc := jsTrim form.desc
  let amount := jsRound form.amount
  if date = "" ∨ posCheck amount = false then
    ⟨st, false, AddOutcome.validationError⟩
  else
    let row : IncomeRow :=
      { id := fresh, date := date, desc := if desc = "" then "Income" else desc,
        amount := ((amount.getD 0 : ℤ) : ℚ), notes := jsTrim form.notes }
    if serverOk then
      ⟨{ st with income := st.income ++ [row] }, true, AddOutcome.added⟩
    else
      ⟨st, true, AddOutcome.serverError⟩

/-- Embedding of onAddExpense (page, lines 782-821): as onAddIncome, with
desc defaulting to Expense and a blank trimmed category defaulting to
Other. -/
def onAddExpense (fresh : String) (serverOk : Bool) (form : ExpenseForm)
    (st : ClientState) : AddResult :=
  let date := jsTrim form.date
  let category := jsTrim form.category
  let desc := jsTrim form.desc
  let amount := jsRound form.amount
  if date = "" ∨ posCheck amount = false then
    ⟨st, false, AddOutcome.validationError⟩
  else
    let row : ExpenseRow :=
      { id := fresh, date := date,
        category := if category = "" then "Other" else category,
        desc := if desc = "" then "Expense" else desc,
        amount := ((amount.getD 0 : ℤ) : ℚ), notes := jsTrim form.notes }
    if serverOk then
      ⟨{ st with expenses := st.expenses ++ [row] }, true, AddOutcome.added⟩
    else
      ⟨st, true, AddOutcome.serverError⟩

/-- A stored row as seen by the DELETE handlers: its id, its owning user,
and the remaining columns bundled as an opaque payload. -/
structure DbRow where
  id : String
  userId : String
  payload : String
deriving DecidableEq, Repr

/-- The WHERE clause of the DELETE statements: id = $1 AND user_id = $2. -/
def rowMatches (id userId : String) (r : DbRow) : Bool :=
  decide (r.id = id ∧ r.userId = userId)

/-- Embedding of the DELETE handlers of /api/expenses (route, lines 78-106)
and /api/income (src/unnamed/part_000, lines 78-106), which share this
logic: 401 without a session, 400 when the id query parameter is absent
(searchParams.get yields null, and the empty string is equally falsy),
otherwise run the SQL DELETE and answer 404 when it returned no row and
200 with success otherwise. -/
def deleteHandler (auth : Option String) (idParam : Option String)
    (db : List DbRow) : ℕ × List DbRow :=
  match auth with
  | none => (401, db)
  | some userId =>
    match idParam with
    | none => (400, db)
    | some id =>
      if id = "" then (400, db)
      else
        let returned := db.filter (rowMatches id userId)
        let remaining := db.filter (fun r => ! rowMatches id userId r)
        if returned.length = 0 then (404, remaining) else (200, remaining)

/-- Embedding of the saved-rate effect (page, lines 543-553): absent or
empty storage is ignored; a parsed value is adopted only when it is finite
and strictly positive. -/
def applySavedRate (r : JsNum) (stored : Option JsNum) : JsNum :=
  match stored with
  | none => r
  | some (JsNum.fin q) => if q ≤ 0 then r else JsNum.fin q
  | some _ => r

/-- Embedding of refreshRate (page, lines 567-584): the fetched USD-per-KRW
quote must be finite and strictly positive, else the handler throws and the
rate is kept; on success the rate becomes its reciprocal (exact
arithmetic). -/
def applyFetchedRate (r : JsNum) (usdPerKrw : JsNum) : JsNum :=
  match usdPerKrw with
  | JsNum.fin q => if q ≤ 0 then r else JsNum.fin (1 / q)
  | _ => r

/-- The rates the in-app rate state can reach: the initial useState(1388),
then any sequence of saved-rate loads and fetch refreshes. -/
inductive RateReachable : JsNum → Prop where
  | init : RateReachable (JsNum.fin 1388)
  | saved (r : JsNum) (stored : Option JsNum) :
      RateReachable r → RateReachable (applySavedRate r stored)
  | fetched (r u : JsNum) :
      RateReachable r → RateReachable (applyFetchedRate r u)

/-- Remove the first entry with the given key from a category map. -/
def eraseKey (m : List (String × ℚ)) (c : String) : List (String × ℚ) :=
  match m with
  | [] => []
  | (k, v) :: rest => if k = c then rest else (k, v) :: eraseKey rest c

lemma amtOrZero_eq (a : ℚ) : amtOrZero a = a := by
  by_cases h : a = 0 <;> simp [amtOrZero, h]

lemma sumVals_addToCat (m : List (String × ℚ)) (c : String) (a : ℚ) :
    sumVals (addToCat m c a) = sumVals m + a := by
  induction m with
  | nil => simp [addToCat, sumVals]
  | cons p rest ih =>
    obtain ⟨k, v⟩ := p
    by_cases h : k = c <;> simp [addToCat, h, sumVals] at ih ⊢ <;> linarith

lemma foldl_add_map {α : Type} (f : α → ℚ) (l : List α) (init : ℚ) :
    l.foldl (fun s r => s + f r) init = init + (l.map f).sum := by
  induction l generalizing init with
  | nil => simp
  | cons x xs ih => simp [List.foldl_cons, ih]; ring

lemma sumVals_breakdown_foldl (rows : List ExpenseRow) (m : List (String × ℚ)) :
    sumVals (rows.foldl (fun acc e => addToCat acc e.category (amtOrZero e.amount)) m)
      = sumVals m + (rows.map (fun e => amtOrZero e.amount)).sum := by
  induction rows generalizing m with
  | nil => simp
  | cons e es ih => simp [List.foldl_cons, ih, sumVals_addToCat]; ring

lemma sumVals_breakdown (rows : List ExpenseRow) :
    sumVals (breakdown rows) = totalsExpenseKRW rows := by
  unfold breakdown totalsExpenseKRW
  rw [sumVals_breakdown_foldl, foldl_add_map]
  simp [sumVals]

lemma addToCat_keys (m : List (String × ℚ)) (c : String) (a : ℚ) :
    (addToCat m c a).map Prod.fst =
      if c ∈ m.map Prod.fst then m.map Prod.fst else m.map Prod.fst ++ [c] := by
  induction m with
  | nil => simp [addToCat]
  | cons p rest ih =>
    obtain ⟨k, v⟩ := p
    by_cases h : k = c
    · subst h; simp [addToCat]
    · have hck : ¬ c = k := fun hc => h hc.symm
      by_cases hm : c ∈ rest.map Prod.fst <;>
        simp [addToCat, h, hck, hm, ih]

lemma addToCat_keys_nodup (m : List (String × ℚ)) (c : String) (a : ℚ)
    (h : (m.map Prod.fst).Nodup) : ((addToCat m c a).map Prod.fst).Nodup := by
  rw [addToCat_keys]
  by_cases hm : c ∈ m.map Prod.fst
  · simpa [hm] using h
  · simp only [hm, if_false, List.nodup_append]
    exact ⟨h, List.nodup_singleton c, by simpa [List.disjoint_singleton] using hm⟩

lemma breakdown_foldl_keys_nodup (rows : List ExpenseRow) (m : List (String × ℚ))
    (h : (m.map Prod.fst).Nodup) :
    ((rows.foldl (fun acc e => addToCat acc e.category (amtOrZero e.amount)) m).map
      Prod.fst).Nodup := by
  induction rows generalizing m with
  | nil => simpa using h
  | cons e es ih => exact ih _ (addToCat_keys_nodup _ _ _ h)

lemma breakdown_keys_nodup (rows : List ExpenseRow) :
    ((breakdown rows).map Prod.fst).Nodup :=
  breakdown_foldl_keys_nodup rows [] (by simp)

lemma addToCat_keys_mem (m : List (String × ℚ)) (c : String) (a : ℚ) (k : String)
    (h : k ∈ (addToCat m c a).map Prod.fst) : k ∈ m.map Prod.fst ∨ k = c := by
  rw [addToCat_keys] at h
  by_cases hm : c ∈ m.map Prod.fst
  · rw [if_pos hm] at h; exact Or.inl h
  · rw [if_neg hm] at h
    rcases List.mem_append.mp h with h2 | h2
    · exact Or.inl h2
    · exact Or.inr (by simpa using h2)

lemma breakdown_foldl_keys_mem (rows : List ExpenseRow) (m : List (String × ℚ))
    (k : String)
    (h : k ∈ (rows.foldl (fun acc e => addToCat acc e.category (amtOrZero e.amount))
      m).map Prod.fst) :
    k ∈ m.map Prod.fst ∨ k ∈ rows.map ExpenseRow.category := by
  induction rows generalizing m with
  | nil => exact Or.inl (by simpa using h)
  | cons e es ih =>
    rcases ih _ (by simpa using h) with h2 | h2
    · rcases addToCat_keys_mem _ _ _ _ h2 with h3 | h3
      · exact Or.inl h3
      · exact Or.inr (by simp [h3])
    · exact Or.inr (by simp [h2])

lemma breakdown_keys_mem (rows : List ExpenseRow) (k : String)
    (h : k ∈ (breakdown rows).map Prod.fst) : k ∈ rows.map ExpenseRow.category := by
  rcases breakdown_foldl_keys_mem rows [] k h with h2 | h2
  · simp at h2
  · exact h2

lemma lookupCat_eraseKey_ne (m : List (String × ℚ)) (c c' : String) (h : c' ≠ c) :
    lookupCat (eraseKey m c) c' = lookupCat m c' := by
  induction m with
  | nil => rfl
  | cons p rest ih =>
    obtain ⟨k, v⟩ := p
    by_cases hk : k = c
    · subst hk
      have hne : ¬ k = c' := fun hc => h hc.symm
      simp [eraseKey, lookupCat, hne]
    · by_cases hk2 : k = c'
      · subst hk2
        simp [eraseKey, lookupCat, hk]
      · simp [eraseKey, lookupCat, hk, hk2, ih]

lemma sumVals_eraseKey (m : List (String × ℚ)) (c : String) :
    sumVals m = lookupCat m c + sumVals (eraseKey m c) := by
  induction m with
  | nil => simp [lookupCat, eraseKey, sumVals]
  | cons p rest ih =>
    obtain ⟨k, v⟩ := p
    by_cases hk : k = c <;> simp [lookupCat, eraseKey, hk, sumVals] at ih ⊢ <;> linarith

lemma eraseKey_keys_sub (m : List (String × ℚ)) (c k : String)
    (h : k ∈ (eraseKey m c).map Prod.fst) : k ∈ m.map Prod.fst := by
  induction m with
  | nil => exact absurd h (by simp [eraseKey])
  | cons p rest ih =>
    obtain ⟨k0, v⟩ := p
    rw [List.map_cons, List.mem_cons]
    by_cases hk : k0 = c
    · simp only [eraseKey, if_pos hk] at h
      exact Or.inr h
    · simp only [eraseKey, if_neg hk, List.map_cons, List.mem_cons] at h
      rcases h with h | h
      · exact Or.inl h
      · exact Or.inr (ih h)

lemma eraseKey_keys_not_mem (m : List (String × ℚ)) (c : String)
    (h : (m.map Prod.fst).Nodup) : c ∉ (eraseKey m c).map Prod.fst := by
  induction m with
  | nil => simp [eraseKey]
  | cons p rest ih =>
    obtain ⟨k0, v⟩ := p
    simp only [List.map_cons, List.nodup_cons] at h
    by_cases hk : k0 = c
    · subst hk; simpa [eraseKey] using h.1
    · simp only [eraseKey, hk, if_false, List.map_cons, List.mem_cons]
      rintro (h2 | h2)
      · exact hk h2.symm
      · exact ih h.2 h2

lemma eraseKey_keys_nodup (m : List (String × ℚ)) (c : String)
    (h : (m.map Prod.fst).Nodup) : ((eraseKey m c).map Prod.fst).Nodup := by
  induction m with
  | nil => simpa [eraseKey] using h
  | cons p rest ih =>
    obtain ⟨k0, v⟩ := p
    simp only [List.map_cons, List.nodup_cons] at h
    by_cases hk : k0 = c
    · simpa [eraseKey, hk] using h.2
    · simp only [eraseKey, hk, if_false, List.map_cons, List.nodup_cons]
      exact ⟨fun h2 => h.1 (eraseKey_keys_sub rest c k0 h2), ih h.2⟩

lemma sum_lookup_over_cats (cats : List String) (m : List (String × ℚ))
    (hnc : cats.Nodup) (hsub : ∀ k ∈ m.map Prod.fst, k ∈ cats)
    (hnm : (m.map Prod.fst).Nodup) :
    (cats.map (lookupCat m)).sum = sumVals m := by
  induction cats generalizing m with
  | nil =>
    cases m with
    | nil => simp [sumVals]
    | cons p rest => exact absurd (hsub p.1 (by simp)) (by simp)
  | cons c rest ih =>
    simp only [List.nodup_cons] at hnc
    have hmapeq : rest.map (lookupCat m) = rest.map (lookupCat (eraseKey m c)) := by
      apply List.map_congr_left
      intro k hk
      exact (lookupCat_eraseKey_ne m c k (fun he => hnc.1 (he ▸ hk))).symm
    have hrec : (rest.map (lookupCat (eraseKey m c))).sum = sumVals (eraseKey m c) := by
      apply ih (eraseKey m c) hnc.2
      · intro k hk
        have hmem := hsub k (eraseKey_keys_sub m c k hk)
        rcases List.mem_cons.mp hmem with h2 | h2
        · exact absurd (h2 ▸ hk) (eraseKey_keys_not_mem m c hnm)
        · exact h2
      · exact eraseKey_keys_nodup m c hnm
    rw [List.map_cons, List.sum_cons, hmapeq, hrec, ← sumVals_eraseKey]

lemma sum_map_div_mul (l : List String) (f : String → ℚ) (T : ℚ) :
    (l.map (fun c => f c / T * 100)).sum = (l.map f).sum / T * 100 := by
  induction l with
  | nil => simp
  | cons x xs ih => simp [ih]; ring

lemma addToCat_vals_nonneg (m : List (String × ℚ)) (c : String) (a : ℚ)
    (hm : ∀ v ∈ m.map Prod.snd, 0 ≤ v) (ha : 0 ≤ a) :
    ∀ v ∈ (addToCat m c a).map Prod.snd, 0 ≤ v := by
  induction m with
  | nil =>
    intro v hv
    simp [addToCat] at hv
    simpa [hv] using ha
  | cons p rest ih =>
    obtain ⟨k, v0⟩ := p
    intro v hv
    by_cases hk : k = c
    · simp [addToCat, hk] at hv
      rcases hv with hv | hv
      · have h1 : 0 ≤ v0 := hm v0 (by simp)
        subst hv; linarith
      · exact hm v (by simp [hv])
    · simp [addToCat, hk] at hv
      rcases hv with hv | hv
      · exact hm v (by simp [hv])
      · exact ih (fun w hw => hm w (by simp [List.mem_cons]; right; simpa using hw)) v
          (by simpa using hv)

lemma breakdown_foldl_vals_nonneg (rows : List ExpenseRow) (m : List (String × ℚ))
    (hm : ∀ v ∈ m.map Prod.snd, 0 ≤ v) (hr : ∀ e ∈ rows, 0 ≤ e.amount) :
    ∀ v ∈ ((rows.foldl (fun acc e => addToCat acc e.category (amtOrZero e.amount))
      m).map Prod.snd), 0 ≤ v := by
  induction rows generalizing m with
  | nil => simpa using hm
  | cons e es ih =>
    intro v hv
    have he : 0 ≤ amtOrZero e.amount := by
      rw [amtOrZero_eq]; exact hr e (by simp)
    exact ih _ (addToCat_vals_nonneg m e.category _ hm he)
      (fun x hx => hr x (by simp [hx])) v (by simpa using hv)

lemma breakdown_vals_nonneg (rows : List ExpenseRow)
    (hr : ∀ e ∈ rows, 0 ≤ e.amount) :
    ∀ v ∈ (breakdown rows).map Prod.snd, 0 ≤ v :=
  breakdown_foldl_vals_nonneg rows [] (by simp) hr

lemma lookupCat_mem_or_zero (m : List (String × ℚ)) (c : String) :
    lookupCat m c = 0 ∨ lookupCat m c ∈ m.map Prod.snd := by
  induction m with
  | nil => simp [lookupCat]
  | cons p rest ih =>
    obtain ⟨k, v⟩ := p
    by_cases hk : k = c
    · simp [lookupCat, hk]
    · rcases ih with h | h
      · exact Or.inl (by simpa [lookupCat, hk] using h)
      · exact Or.inr (by simp [lookupCat, hk, h])

lemma lookupCat_eq_zero_of_sum_zero (rows : List ExpenseRow) (c : String)
    (hr : ∀ e ∈ rows, 0 ≤ e.amount) (h0 : totalsExpenseKRW rows = 0) :
    lookupCat (breakdown rows) c = 0 := by
  rcases lookupCat_mem_or_zero (breakdown rows) c with h | h
  · exact h
  · have hnn := breakdown_vals_nonneg rows hr
    have hle : lookupCat (breakdown rows) c ≤ ((breakdown rows).map Prod.snd).sum :=
      List.single_le_sum hnn _ h
    have hsum : ((breakdown rows).map Prod.snd).sum = 0 := by
      have := sumVals_breakdown rows
      simpa [sumVals, h0] using this
    have hge := hnn _ h
    linarith

/-- C1: for every KRW amount and every rate, krwToUsd returns krw / rate
when the rate is a finite number strictly greater than 0, and returns 0
when the rate is non-finite (NaN or infinite) or at most 0.  The result is
the exact quotient: the conversion itself applies no rounding. -/
theorem krwToUsd_spec (krw : ℚ) (rate : JsNum) :
    (∀ r : ℚ, rate = JsNum.fin r → 0 < r → krwToUsd krw rate = krw / r) ∧
    (rate.isFinite = false → krwToUsd krw rate = 0) ∧
    (∀ r : ℚ, rate = JsNum.fin r → r ≤ 0 → krwToUsd krw rate = 0) := by
  refine ⟨?_, ?_, ?_⟩
  · rintro r rfl hr
    simp [krwToUsd, not_le.mpr hr]
  · intro h
    cases rate <;> simp_all [krwToUsd, JsNum.isFinite]
  · rintro r rfl hr
    simp [krwToUsd, hr]

/-- Witness for C1 at concrete rates: a positive finite rate divides, NaN
and a negative rate give 0. -/
theorem krwToUsd_spec_witness :
    krwToUsd 2776 (JsNum.fin 1388) = 2776 / 1388 ∧
    krwToUsd 5 JsNum.nan = 0 ∧
    krwToUsd 5 (JsNum.fin (-2)) = 0 :=
  ⟨(krwToUsd_spec 2776 (JsNum.fin 1388)).1 1388 rfl (by norm_num),
   (krwToUsd_spec 5 JsNum.nan).2.1 rfl,
   (krwToUsd_spec 5 (JsNum.fin (-2))).2.2 (-2) rfl (by norm_num)⟩

/-- C2: for every list of expense records, the sum over all categories of
the per-category breakdown amounts equals the total expense sum computed
by the totals fold over the same list. -/
theorem breakdown_sum_eq_total (rows : List ExpenseRow) :
    sumVals (breakdown rows) = totalsExpenseKRW rows :=
  sumVals_breakdown rows

/-- C3: with each category's percentage computed as
categoryTotal / (totalExpense || 1) * 100 over any duplicate-free category
list covering the records' categories (as the rendered category state
does), the percentages sum to exactly 100 when the total expense is
strictly positive, and every category's percentage is 0 when the total
expense is 0.  Amounts are non-negative per the data model. -/
theorem pct_sum_spec (rows : List ExpenseRow) (cats : List String)
    (hnodup : cats.Nodup) (hcover : ∀ e ∈ rows, e.category ∈ cats)
    (hnonneg : ∀ e ∈ rows, 0 ≤ e.amount) :
    (0 < totalsExpenseKRW rows → (cats.map (pctOf rows)).sum = 100) ∧
    (totalsExpenseKRW rows = 0 → ∀ c : String, pctOf rows c = 0) := by
  constructor
  · intro hpos
    have hne : totalsExpenseKRW rows ≠ 0 := ne_of_gt hpos
    have hsum : (cats.map (lookupCat (breakdown rows))).sum = sumVals (breakdown rows) := by
      apply sum_lookup_over_cats cats (breakdown rows) hnodup
      · intro k hk
        have hmem := breakdown_keys_mem rows k hk
        rcases List.mem_map.mp hmem with ⟨e, he, rfl⟩
        exact hcover e he
      · exact breakdown_keys_nodup rows
    unfold pctOf
    rw [sum_map_div_mul, hsum, sumVals_breakdown]
    unfold orOne
    rw [if_neg hne, div_self hne]
    norm_num
  · intro h0 c
    unfold pctOf
    rw [lookupCat_eq_zero_of_sum_zero rows c hnonneg h0]
    simp

/-- Witness for C3: a single Food and Drinks expense against the default
category list gives percentages summing to 100. -/
theorem pct_sum_spec_witness :
    (DEFAULT_CATEGORIES.map (pctOf
      [{ id := "e1", date := "2024-01-02", category := "Food & Drinks",
         desc := "Lunch", amount := 1200000, notes := "" }])).sum = 100 :=
  (pct_sum_spec
    [{ id := "e1", date := "2024-01-02", category := "Food & Drinks",
       desc := "Lunch", amount := 1200000, notes := "" }]
    DEFAULT_CATEGORIES (by decide) (by decide) (by decide)).1
    (by norm_num [totalsExpenseKRW, amtOrZero])

lemma jsStrOr_some_self (s : String) : jsStrOr (some s) "" = s := by
  by_cases h : s = "" <;> simp [jsStrOr, h]

lemma jsStrOr_some_ne (s d : String) (h : s ≠ "") : jsStrOr (some s) d = s := by
  simp [jsStrOr, h]

lemma jsAmtOr0_some (q : ℚ) : jsAmtOr0 (some q) = q := by
  by_cases h : q = 0 <;> simp [jsAmtOr0, h]

lemma importIncomeRec_export (fresh : String) (r : IncomeRow)
    (hid : r.id ≠ "") (ha : 0 ≤ r.amount) :
    importIncomeRec fresh (exportIncomeRec r) = r := by
  unfold importIncomeRec exportIncomeRec
  simp only [jsStrOr_some_ne _ _ hid, jsStrOr_some_self, jsAmtOr0_some,
    max_eq_right ha]

lemma importExpenseRec_export (fresh : String) (r : ExpenseRow)
    (hid : r.id ≠ "") (hcat : r.category ≠ "") (ha : 0 ≤ r.amount) :
    importExpenseRec fresh (exportExpenseRec r) = r := by
  unfold importExpenseRec exportExpenseRec
  simp only [jsStrOr_some_ne _ _ hid, jsStrOr_some_ne _ _ hcat, jsStrOr_some_self,
    jsAmtOr0_some, max_eq_right ha]

lemma importIncomeList_export (fresh : ℕ → String) (k : ℕ) (rows : List IncomeRow)
    (h : ∀ r ∈ rows, r.id ≠ "" ∧ 0 ≤ r.amount) :
    importIncomeList fresh k (rows.map exportIncomeRec) = rows := by
  induction rows generalizing k with
  | nil => rfl
  | cons r rest ih =>
    simp only [List.map_cons, importIncomeList]
    rw [importIncomeRec_export _ r (h r (by simp)).1 (h r (by simp)).2,
      ih (k + 1) (fun x hx => h x (by simp [hx]))]

lemma importExpenseList_export (fresh : ℕ → String) (k : ℕ) (rows : List ExpenseRow)
    (h : ∀ r ∈ rows, r.id ≠ "" ∧ r.category ≠ "" ∧ 0 ≤ r.amount) :
    importExpenseList fresh k (rows.map exportExpenseRec) = rows := by
  induction rows generalizing k with
  | nil => rfl
  | cons r rest ih =>
    simp only [List.map_cons, importExpenseList]
    rw [importExpenseRec_export _ r (h r (by simp)).1 (h r (by simp)).2.1
      (h r (by simp)).2.2, ih (k + 1) (fun x hx => h x (by simp [hx]))]

/-- C4: exporting a ledger with exportJSON and importing the produced
document through the confirmed import routine reproduces the income and
expense records exactly (ids, dates, amounts, categories, and the optional
fields, which export writes out and import preserves), for any state whose
rows have the invariant shape: non-empty ids, non-negative amounts and
non-empty expense categories. -/
theorem export_import_roundtrip (rate : ℚ) (exportedAt : String)
    (freshI freshE : ℕ → String) (st : ClientState)
    (hinc : ∀ r ∈ st.income, r.id ≠ "" ∧ 0 ≤ r.amount)
    (hexp : ∀ r ∈ st.expenses, r.id ≠ "" ∧ r.category ≠ "" ∧ 0 ≤ r.amount) :
    (onFilePicked freshI freshE (Except.ok (exportJSON rate exportedAt st))
        true st).1.income = st.income ∧
    (onFilePicked freshI freshE (Except.ok (exportJSON rate exportedAt st))
        true st).1.expenses = st.expenses ∧
    (onFilePicked freshI freshE (Except.ok (exportJSON rate exportedAt st))
        true st).2 = ImportOutcome.success := by
  simp only [onFilePicked, exportJSON]
  exact ⟨importIncomeList_export freshI 0 st.income hinc,
    importExpenseList_export freshE 0 st.expenses hexp, rfl⟩

/-- Witness for C4 on a one-income, one-expense ledger. -/
theorem export_import_roundtrip_witness :
    (onFilePicked (fun _ => "fi") (fun _ => "fe")
        (Except.ok (exportJSON 1200 "2024-02-01"
          ⟨[⟨"i1", "2024-01-01", "Salary", 3000000, ""⟩],
            [⟨"e1", "2024-01-02", "Food & Drinks", "Lunch", 1200000, ""⟩],
            ["Food & Drinks", "Other"]⟩))
        true
        ⟨[⟨"i1", "2024-01-01", "Salary", 3000000, ""⟩],
          [⟨"e1", "2024-01-02", "Food & Drinks", "Lunch", 1200000, ""⟩],
          ["Food & Drinks", "Other"]⟩).1.income =
      [⟨"i1", "2024-01-01", "Salary", 3000000, ""⟩] :=
  (export_import_roundtrip 1200 "2024-02-01" (fun _ => "fi") (fun _ => "fe")
    ⟨[⟨"i1", "2024-01-01", "Salary", 3000000, ""⟩],
      [⟨"e1", "2024-01-02", "Food & Drinks", "Lunch", 1200000, ""⟩],
      ["Food & Drinks", "Other"]⟩
    (by decide) (by decide)).1

/-- C5: an import input that is not valid JSON, or whose parsed document
lacks income or expenses as arrays, is rejected: the client state is left
completely unchanged and the routine reports the specific error (the parse
error message, or the missing-arrays message). -/
theorem import_invalid_rejected (freshI freshE : ℕ → String)
    (parsed : Except String ImportDoc) (confirm : Bool) (st : ClientState)
    (h : ∀ obj : ImportDoc, parsed = Except.ok obj →
      obj.income = none ∨ obj.expenses = none) :
    (onFilePicked freshI freshE parsed confirm st).1 = st ∧
    ∃ msg : String,
      (onFilePicked freshI freshE parsed confirm st).2 = ImportOutcome.failed msg ∧
      (parsed = Except.error msg ∨
        msg = "Invalid format: Missing income/expenses arrays") := by
  cases parsed with
  | error msg => exact ⟨rfl, msg, rfl, Or.inl rfl⟩
  | ok obj =>
    have h2 := h obj rfl
    cases hi : obj.income with
    | none =>
      cases he : obj.expenses with
      | none =>
        exact ⟨by simp [onFilePicked, hi, he],
          "Invalid format: Missing income/expenses arrays",
          by simp [onFilePicked, hi, he], Or.inr rfl⟩
      | some exps =>
        exact ⟨by simp [onFilePicked, hi, he],
          "Invalid format: Missing income/expenses arrays",
          by simp [onFilePicked, hi, he], Or.inr rfl⟩
    | some incs =>
      cases he : obj.expenses with
      | none =>
        exact ⟨by simp [onFilePicked, hi, he],
          "Invalid format: Missing income/expenses arrays",
          by simp [onFilePicked, hi, he], Or.inr rfl⟩
      | some exps =>
        rw [hi, he] at h2
        rcases h2 with h2 | h2 <;> exact absurd h2 (by simp)

/-- Witness for C5: a document whose income field is not an array is
rejected and the state survives untouched. -/
theorem import_invalid_rejected_witness :
    (onFilePicked (fun _ => "a") (fun _ => "b")
        (Except.ok (⟨none, none, none, none, some [], none⟩ : ImportDoc))
        true ⟨[], [], ["A"]⟩).1 = ⟨[], [], ["A"]⟩ ∧
    ∃ msg : String,
      (onFilePicked (fun _ => "a") (fun _ => "b")
        (Except.ok (⟨none, none, none, none, some [], none⟩ : ImportDoc))
        true ⟨[], [], ["A"]⟩).2 = ImportOutcome.failed msg ∧
      ((Except.ok (⟨none, none, none, none, some [], none⟩ : ImportDoc) :
            Except String ImportDoc) = Except.error msg ∨
        msg = "Invalid format: Missing income/expenses arrays") :=
  import_invalid_rejected (fun _ => "a") (fun _ => "b")
    (Except.ok (⟨none, none, none, none, some [], none⟩ : ImportDoc))
    true ⟨[], [], ["A"]⟩
    (fun obj hobj => by injection hobj with hobj; subst hobj; exact Or.inl rfl)

lemma posCheck_true (o : Option ℤ) (h : posCheck o = true) :
    ∃ z : ℤ, o = some z ∧ 0 < z := by
  cases o with
  | none => simp [posCheck] at h
  | some z => exact ⟨z, rfl, by simpa [posCheck] using h⟩

/-- C6: for both add-record forms, the submission is rejected before any
network call exactly when the trimmed date is empty or the rounded amount
fails the positivity check (so an accepted record always has a non-empty
date and a positive integer amount); an accepted income (resp. expense)
record gets the Income (resp. Expense) description default, the Other
category default for a blank expense category, the client-generated id,
and is appended to local state only after the server confirms success —
validation and server failures leave the state unchanged. -/
theorem add_record_spec (freshI freshE : String) (serverOk : Bool)
    (fI : IncomeForm) (fE : ExpenseForm) (st : ClientState) :
    (((onAddIncome freshI serverOk fI st).networkCalled = false ↔
      (onAddIncome freshI serverOk fI st).outcome = AddOutcome.validationError) ∧
     ((onAddIncome freshI serverOk fI st).outcome = AddOutcome.validationError ↔
      (jsTrim fI.date = "" ∨ posCheck (jsRound fI.amount) = false)) ∧
     ((onAddIncome freshI serverOk fI st).outcome ≠ AddOutcome.added →
      (onAddIncome freshI serverOk fI st).state = st) ∧
     ((onAddIncome freshI serverOk fI st).outcome = AddOutcome.added →
      serverOk = true ∧ ∃ z : ℤ, 0 < z ∧
        (onAddIncome freshI serverOk fI st).state.income =
          st.income ++ [⟨freshI, jsTrim fI.date,
            if jsTrim fI.desc = "" then "Income" else jsTrim fI.desc,
            (z : ℚ), jsTrim fI.notes⟩] ∧
        (onAddIncome freshI serverOk fI st).state.expenses = st.expenses)) ∧
    (((onAddExpense freshE serverOk fE st).networkCalled = false ↔
      (onAddExpense freshE serverOk fE st).outcome = AddOutcome.validationError) ∧
     ((onAddExpense freshE serverOk fE st).outcome = AddOutcome.validationError ↔
      (jsTrim fE.date = "" ∨ posCheck (jsRound fE.amount) = false)) ∧
     ((onAddExpense freshE serverOk fE st).outcome ≠ AddOutcome.added →
      (onAddExpense freshE serverOk fE st).state = st) ∧
     ((onAddExpense freshE serverOk fE st).outcome = AddOutcome.added →
      serverOk = true ∧ ∃ z : ℤ, 0 < z ∧
        (onAddExpense freshE serverOk fE st).state.expenses =
          st.expenses ++ [⟨freshE, jsTrim fE.date,
            if jsTrim fE.category = "" then "Other" else jsTrim fE.category,
            if jsTrim fE.desc = "" then "Expense" else jsTrim fE.desc,
            (z : ℚ), jsTrim fE.notes⟩] ∧
        (onAddExpense freshE serverOk fE st).state.income = st.income)) := by
  constructor
  · refine ⟨?_, ?_, ?_, ?_⟩
    · by_cases hv : jsTrim fI.date = "" ∨ posCheck (jsRound fI.amount) = false
      · simp [onAddIncome, hv]
      · cases serverOk <;> simp [onAddIncome, hv]
    · by_cases hv : jsTrim fI.date = "" ∨ posCheck (jsRound fI.amount) = false
      · simp [onAddIncome, hv]
      · cases serverOk <;> simp [onAddIncome, hv]
    · intro hne
      by_cases hv : jsTrim fI.date = "" ∨ posCheck (jsRound fI.amount) = false
      · simp [onAddIncome, hv]
      · cases serverOk with
        | false => simp [onAddIncome, hv]
        | true => exact absurd (by simp [onAddIncome, hv]) hne
    · intro hadded
      by_cases hv : jsTrim fI.date = "" ∨ posCheck (jsRound fI.amount) = false
      · simp [onAddIncome, hv] at hadded
      · have hpos : posCheck (jsRound fI.amount) = true := by
          rcases Bool.eq_false_or_eq_true (posCheck (jsRound fI.amount)) with h | h
          · exact h
          · exact absurd (Or.inr h) hv
        obtain ⟨z, hz1, hz2⟩ := posCheck_true _ hpos
        cases serverOk with
        | false => simp [onAddIncome, hv] at hadded
        | true =>
          refine ⟨rfl, z, hz2, ?_, ?_⟩
          · have hgd : (jsRound fI.amount).getD 0 = z := by rw [hz1]; rfl
            simp [onAddIncome, hv, hgd]
          · simp [onAddIncome, hv]
  · refine ⟨?_, ?_, ?_, ?_⟩
    · by_cases hv : jsTrim fE.date = "" ∨ posCheck (jsRound fE.amount) = false
      · simp [onAddExpense, hv]
      · cases serverOk <;> simp [onAddExpense, hv]
    · by_cases hv : jsTrim fE.date = "" ∨ posCheck (jsRound fE.amount) = false
      · simp [onAddExpense, hv]
      · cases serverOk <;> simp [onAddExpense, hv]
    · intro hne
      by_cases hv : jsTrim fE.date = "" ∨ posCheck (jsRound fE.amount) = false
      · simp [onAddExpense, hv]
      · cases serverOk with
        | false => simp [onAddExpense, hv]
        | true => exact absurd (by simp [onAddExpense, hv]) hne
    · intro hadded
      by_cases hv : jsTrim fE.date = "" ∨ posCheck (jsRound fE.amount) = false
      · simp [onAddExpense, hv] at hadded
      · have hpos : posCheck (jsRound fE.amount) = true := by
          rcases Bool.eq_false_or_eq_true (posCheck (jsRound fE.amount)) with h | h
          · exact h
          · exact absurd (Or.inr h) hv
        obtain ⟨z, hz1, hz2⟩ := posCheck_true _ hpos
        cases serverOk with
        | false => simp [onAddExpense, hv] at hadded
        | true =>
          refine ⟨rfl, z, hz2, ?_, ?_⟩
          · have hgd : (jsRound fE.amount).getD 0 = z := by rw [hz1]; rfl
            simp [onAddExpense, hv, hgd]
          · simp [onAddExpense, hv]

/-- Witness for C6: a valid income submission with a blank description is
accepted, gets the Income default and a positive integer amount, and is
appended to the previously empty ledger. -/
theorem add_record_spec_witness :
    (true : Bool) = true ∧ ∃ z : ℤ, 0 < z ∧
      (onAddIncome "i9" true ⟨"2024-03-01", "", some 1000, ""⟩
          ⟨[], [], []⟩).state.income =
        (⟨[], [], []⟩ : ClientState).income ++
          [⟨"i9", jsTrim "2024-03-01",
            if jsTrim "" = "" then "Income" else jsTrim "",
            (z : ℚ), jsTrim ""⟩] ∧
      (onAddIncome "i9" true ⟨"2024-03-01", "", some 1000, ""⟩
          ⟨[], [], []⟩).state.expenses = (⟨[], [], []⟩ : ClientState).expenses :=
  (add_record_spec "i9" "e9" true ⟨"2024-03-01", "", some 1000, ""⟩
      ⟨"2024-03-02", "c", "d", some 5, ""⟩ ⟨[], [], []⟩).1.2.2.2
    (by
      have hj : jsRound (some (1000 : ℚ)) = some 1000 := by
        simp [jsRound]
        norm_num
      have hcond : ¬(jsTrim "2024-03-01" = "" ∨
          posCheck (jsRound (some (1000 : ℚ))) = false) := by
        push_neg
        refine ⟨by decide, ?_⟩
        simp [hj, posCheck]
      simp [onAddIncome, hcond])

lemma dedupAux_mem (l seen : List String) (c : String) :
    c ∈ dedupAux seen l ↔ c ∈ l ∧ c ∉ seen := by
  induction l generalizing seen with
  | nil => simp [dedupAux]
  | cons x xs ih =>
    by_cases hx : x ∈ seen
    · rw [dedupAux, if_pos hx, ih]
      constructor
      · rintro ⟨h1, h2⟩
        exact ⟨List.mem_cons_of_mem _ h1, h2⟩
      · rintro ⟨h1, h2⟩
        rcases List.mem_cons.mp h1 with rfl | h1
        · exact absurd hx h2
        · exact ⟨h1, h2⟩
    · rw [dedupAux, if_neg hx]
      constructor
      · intro h
        rcases List.mem_cons.mp h with rfl | h
        · exact ⟨List.mem_cons_self _ _, hx⟩
        · rw [ih] at h
          refine ⟨List.mem_cons_of_mem _ h.1, fun hc => h.2 (List.mem_cons_of_mem _ hc)⟩
      · rintro ⟨h1, h2⟩
        rcases List.mem_cons.mp h1 with rfl | h1
        · exact List.mem_cons_self _ _
        · by_cases hcx : c = x
          · subst hcx
            exact List.mem_cons_self _ _
          · refine List.mem_cons_of_mem _ ?_
            rw [ih]
            refine ⟨h1, fun hc => ?_⟩
            rcases List.mem_cons.mp hc with h3 | h3
            · exact hcx h3
            · exact h2 h3

lemma dedupAux_nodup (l seen : List String) : (dedupAux seen l).Nodup := by
  induction l generalizing seen with
  | nil => simp [dedupAux]
  | cons x xs ih =>
    by_cases hx : x ∈ seen
    · rw [dedupAux, if_pos hx]
      exact ih seen
    · rw [dedupAux, if_neg hx]
      refine List.nodup_cons.mpr ⟨fun hmem => ?_, ih (x :: seen)⟩
      rw [dedupAux_mem] at hmem
      exact hmem.2 (List.mem_cons_self x seen)

lemma dedupFirst_mem (l : List String) (c : String) : c ∈ dedupFirst l ↔ c ∈ l := by
  rw [dedupFirst, dedupAux_mem]
  simp

lemma dedupFirst_nodup (l : List String) : (dedupFirst l).Nodup :=
  dedupAux_nodup l []

lemma importIncomeList_get (fresh : ℕ → String) (k i : ℕ) (l : List JsonRec) :
    (importIncomeList fresh k l)[i]? = (l[i]?).map (importIncomeRec (fresh (k + i))) := by
  induction l generalizing k i with
  | nil => simp [importIncomeList]
  | cons n rest ih =>
    cases i with
    | zero => simp [importIncomeList]
    | succ j =>
      have harith : k + 1 + j = k + (j + 1) := by omega
      simp only [importIncomeList, List.getElem?_cons_succ]
      rw [ih (k + 1) j, harith]

lemma importExpenseList_get (fresh : ℕ → String) (k i : ℕ) (l : List JsonRec) :
    (importExpenseList fresh k l)[i]? = (l[i]?).map (importExpenseRec (fresh (k + i))) := by
  induction l generalizing k i with
  | nil => simp [importExpenseList]
  | cons n rest ih =>
    cases i with
    | zero => simp [importExpenseList]
    | succ j =>
      have harith : k + 1 + j = k + (j + 1) := by omega
      simp only [importExpenseList, List.getElem?_cons_succ]
      rw [ih (k + 1) j, harith]

/-- C7: an accepted, confirmed import succeeds and coerces each record
positionally: a missing or empty id becomes the freshly generated one and a
present non-empty id survives; the amount becomes max 0 of the parsed
amount (0 when absent), hence is never negative; a missing or blank
category becomes Other and a present non-empty one survives; and the new
category set is duplicate-free and holds exactly the members of the
document's explicit non-empty category list (the fixed defaults when that
list is absent or empty) together with the categories observed on the
imported expense rows. -/
theorem import_coercion_spec (freshI freshE : ℕ → String) (doc : ImportDoc)
    (incs exps : List JsonRec) (st : ClientState)
    (hi : doc.income = some incs) (he : doc.expenses = some exps) :
    (onFilePicked freshI freshE (Except.ok doc) true st).2 = ImportOutcome.success ∧
    (∀ i : ℕ, (onFilePicked freshI freshE (Except.ok doc) true st).1.income[i]? =
      (incs[i]?).map (importIncomeRec (freshI i))) ∧
    (∀ i : ℕ, (onFilePicked freshI freshE (Except.ok doc) true st).1.expenses[i]? =
      (exps[i]?).map (importExpenseRec (freshE i))) ∧
    (∀ (fresh : String) (n : JsonRec),
      ((n.id = none ∨ n.id = some "") →
        (importIncomeRec fresh n).id = fresh ∧ (importExpenseRec fresh n).id = fresh) ∧
      (∀ s : String, n.id = some s → s ≠ "" →
        (importIncomeRec fresh n).id = s ∧ (importExpenseRec fresh n).id = s) ∧
      (0 ≤ (importIncomeRec fresh n).amount ∧ 0 ≤ (importExpenseRec fresh n).amount) ∧
      (∀ q : ℚ, n.amount = some q →
        (importIncomeRec fresh n).amount = max 0 q ∧
        (importExpenseRec fresh n).amount = max 0 q) ∧
      (n.amount = none → (importIncomeRec fresh n).amount = 0) ∧
      ((n.category = none ∨ n.category = some "") →
        (importExpenseRec fresh n).category = "Other") ∧
      (∀ s : String, n.category = some s → s ≠ "" →
        (importExpenseRec fresh n).category = s)) ∧
    ((onFilePicked freshI freshE (Except.ok doc) true st).1.categories.Nodup ∧
      ∀ c : String,
        c ∈ (onFilePicked freshI freshE (Except.ok doc) true st).1.categories ↔
          (c ∈ catBase doc.categories ∨
            c ∈ (onFilePicked freshI freshE (Except.ok doc) true st).1.expenses.map
              ExpenseRow.category)) := by
  refine ⟨?_, ?_, ?_, ?_, ?_, ?_⟩
  · simp [onFilePicked, hi, he]
  · intro i
    simp only [onFilePicked, hi, he]
    simpa using importIncomeList_get freshI 0 i incs
  · intro i
    simp only [onFilePicked, hi, he]
    simpa using importExpenseList_get freshE 0 i exps
  · intro fresh n
    refine ⟨?_, ?_, ?_, ?_, ?_, ?_, ?_⟩
    · rintro (h | h) <;> simp [importIncomeRec, importExpenseRec, jsStrOr, h]
    · intro s hs hne
      simp [importIncomeRec, importExpenseRec, jsStrOr, hs, hne]
    · constructor <;> simp [importIncomeRec, importExpenseRec]
    · intro q hq
      constructor <;> simp [importIncomeRec, importExpenseRec, hq, jsAmtOr0_some]
    · intro hq
      simp [importIncomeRec, jsAmtOr0, hq]
    · rintro (h | h) <;> simp [importExpenseRec, jsStrOr, h]
    · intro s hs hne
      simp [importExpenseRec, jsStrOr, hs, hne]
  · simp only [onFilePicked, hi, he, if_true]
    exact dedupFirst_nodup _
  · intro c
    simp only [onFilePicked, hi, he, if_true]
    rw [dedupFirst_mem, List.mem_append]

/-- Witness for C7: a concrete two-record document imports successfully. -/
theorem import_coercion_spec_witness :
    (onFilePicked (fun _ => "fi") (fun _ => "fe")
        (Except.ok (⟨none, none, none,
          some [⟨none, none, none, none, some (-5), none⟩],
          some [⟨some "", none, some "", none, none, none⟩],
          none⟩ : ImportDoc))
        true ⟨[], [], []⟩).2 = ImportOutcome.success :=
  (import_coercion_spec (fun _ => "fi") (fun _ => "fe")
    (⟨none, none, none,
      some [⟨none, none, none, none, some (-5), none⟩],
      some [⟨some "", none, some "", none, none, none⟩],
      none⟩ : ImportDoc)
    [⟨none, none, none, none, some (-5), none⟩]
    [⟨some "", none, some "", none, none, none⟩]
    ⟨[], [], []⟩ rfl rfl).1

lemma rowMatches_true (id u : String) (r : DbRow) :
    rowMatches id u r = true ↔ (r.id = id ∧ r.userId = u) := by
  simp [rowMatches]

/-- C8: the DELETE handlers return 401 with the store unchanged when the
caller is unauthenticated, 400 with the store unchanged when the id query
parameter is absent, 404 with the store unchanged when no stored row has
that id and owner, and otherwise succeed with status 200, after which a
row remains stored exactly when it is an original row that does not carry
the deleted id and owner. -/
theorem deleteHandler_spec (auth idParam : Option String) (db : List DbRow) :
    (auth = none → deleteHandler auth idParam db = (401, db)) ∧
    (auth ≠ none → idParam = none → deleteHandler auth idParam db = (400, db)) ∧
    (∀ u id : String, auth = some u → idParam = some id → id ≠ "" →
      ((∀ r ∈ db, ¬(r.id = id ∧ r.userId = u)) →
        deleteHandler auth idParam db = (404, db)) ∧
      ((∃ r ∈ db, r.id = id ∧ r.userId = u) →
        (deleteHandler auth idParam db).1 = 200 ∧
        (∀ r : DbRow, r ∈ (deleteHandler auth idParam db).2 ↔
          (r ∈ db ∧ ¬(r.id = id ∧ r.userId = u))))) := by
  refine ⟨?_, ?_, ?_⟩
  · rintro rfl
    rfl
  · intro hne h2
    cases auth with
    | none => exact absurd rfl hne
    | some u => subst h2; rfl
  · rintro u id rfl rfl hne
    constructor
    · intro hno
      have hfil : db.filter (rowMatches id u) = [] := by
        apply List.filter_eq_nil_iff.mpr
        intro r hr
        exact fun hx => hno r hr ((rowMatches_true id u r).mp hx)
      have hrem : db.filter (fun r => ! rowMatches id u r) = db := by
        apply List.filter_eq_self.mpr
        intro r hr
        cases hb : rowMatches id u r with
        | false => rfl
        | true => exact absurd ((rowMatches_true id u r).mp hb) (hno r hr)
      simp [deleteHandler, hne, hfil, hrem]
    · rintro ⟨r0, hr0, hm⟩
      have hfil : db.filter (rowMatches id u) ≠ [] := by
        intro hnil
        have hmem : r0 ∈ db.filter (rowMatches id u) :=
          List.mem_filter.mpr ⟨hr0, (rowMatches_true id u r0).mpr hm⟩
        rw [hnil] at hmem
        simp at hmem
      have hlen : ¬ (db.filter (rowMatches id u)).length = 0 := by
        rw [List.length_eq_zero]
        exact hfil
      constructor
      · simp [deleteHandler, hne, hlen]
      · intro r
        have hred : (deleteHandler (some u) (some id) db).2 =
            db.filter (fun r => ! rowMatches id u r) := by
          simp [deleteHandler, hne, hlen]
        rw [hred, List.mem_filter]
        constructor
        · rintro ⟨h1, h2⟩
          refine ⟨h1, fun hc => ?_⟩
          rw [show rowMatches id u r = true from (rowMatches_true id u r).mpr hc] at h2
          simp at h2
        · rintro ⟨h1, h2⟩
          refine ⟨h1, ?_⟩
          cases hb : rowMatches id u r with
          | false => rfl
          | true => exact absurd ((rowMatches_true id u r).mp hb) h2

/-- Witness for C8: an authenticated delete of an existing owned row
returns success. -/
theorem deleteHandler_spec_witness :
    (deleteHandler (some "u1") (some "r1")
      [⟨"r1", "u1", "p"⟩, ⟨"r2", "u2", "q"⟩]).1 = 200 :=
  (((deleteHandler_spec (some "u1") (some "r1")
      [⟨"r1", "u1", "p"⟩, ⟨"r2", "u2", "q"⟩]).2.2 "u1" "r1" rfl rfl
      (by decide)).2 ⟨⟨"r1", "u1", "p"⟩, by decide, rfl, rfl⟩).1

/-- Counterexample for C9: importing a record whose amount is -3 is
accepted — the confirmed import clamps the amount to 0 and keeps the
record — so the ledger then holds an accepted record whose amount is not
strictly positive. -/
theorem accepted_amount_pos_counterexample :
    (onFilePicked (fun _ => "fi") (fun _ => "fe")
        (Except.ok (⟨none, none, none,
          some [⟨some "a", some "2024-01-01", none, some "x", some (-3), none⟩],
          some [], none⟩ : ImportDoc))
        true ⟨[], [], []⟩).2 = ImportOutcome.success ∧
    (onFilePicked (fun _ => "fi") (fun _ => "fe")
        (Except.ok (⟨none, none, none,
          some [⟨some "a", some "2024-01-01", none, some "x", some (-3), none⟩],
          some [], none⟩ : ImportDoc))
        true ⟨[], [], []⟩).1.income.map IncomeRow.amount = [0] ∧
    ¬ ((0 : ℚ) > 0) := by
  refine ⟨rfl, ?_, by norm_num⟩
  simp only [onFilePicked, importIncomeList, importIncomeRec, List.map_cons,
    List.map_nil, if_true]
  have h1 : jsAmtOr0 (some (-3 : ℚ)) = -3 := jsAmtOr0_some (-3)
  have h2 : max (0 : ℚ) (-3) = 0 := max_eq_left (by norm_num)
  simp [h1, h2]

lemma importIncomeList_amount_nonneg (fresh : ℕ → String) (k : ℕ)
    (l : List JsonRec) : ∀ r ∈ importIncomeList fresh k l, 0 ≤ r.amount := by
  induction l generalizing k with
  | nil => simp [importIncomeList]
  | cons n rest ih =>
    intro r hr
    rcases List.mem_cons.mp hr with rfl | hr
    · simp [importIncomeRec]
    · exact ih (k + 1) r hr

lemma importExpenseList_amount_nonneg (fresh : ℕ → String) (k : ℕ)
    (l : List JsonRec) : ∀ r ∈ importExpenseList fresh k l, 0 ≤ r.amount := by
  induction l generalizing k with
  | nil => simp [importExpenseList]
  | cons n rest ih =>
    intro r hr
    rcases List.mem_cons.mp hr with rfl | hr
    · simp [importExpenseRec]
    · exact ih (k + 1) r hr

/-- C9 as amended: a record accepted through the add-income or add-expense
form has strictly positive amount, but a record accepted through the import
routine is only guaranteed a non-negative amount — the import clamps
amounts with max(0, amount) and keeps records whose clamped amount is 0.
Every conjunct says that a row of the post-state is an old row or obeys
the bound. -/
theorem accepted_amount_spec :
    (∀ (fresh : String) (serverOk : Bool) (form : IncomeForm) (st : ClientState)
      (r : IncomeRow), r ∈ (onAddIncome fresh serverOk form st).state.income →
        r ∈ st.income ∨ 0 < r.amount) ∧
    (∀ (fresh : String) (serverOk : Bool) (form : ExpenseForm) (st : ClientState)
      (r : ExpenseRow), r ∈ (onAddExpense fresh serverOk form st).state.expenses →
        r ∈ st.expenses ∨ 0 < r.amount) ∧
    (∀ (freshI freshE : ℕ → String) (parsed : Except String ImportDoc)
      (confirm : Bool) (st : ClientState) (r : IncomeRow),
        r ∈ (onFilePicked freshI freshE parsed confirm st).1.income →
          r ∈ st.income ∨ 0 ≤ r.amount) ∧
    (∀ (freshI freshE : ℕ → String) (parsed : Except String ImportDoc)
      (confirm : Bool) (st : ClientState) (r : ExpenseRow),
        r ∈ (onFilePicked freshI freshE parsed confirm st).1.expenses →
          r ∈ st.expenses ∨ 0 ≤ r.amount) := by
  refine ⟨?_, ?_, ?_, ?_⟩
  · intro fresh serverOk form st r hr
    by_cases hv : jsTrim form.date = "" ∨ posCheck (jsRound form.amount) = false
    · exact Or.inl (by simpa [onAddIncome, hv] using hr)
    · have hpos : posCheck (jsRound form.amount) = true := by
        rcases Bool.eq_false_or_eq_true (posCheck (jsRound form.amount)) with h | h
        · exact h
        · exact absurd (Or.inr h) hv
      obtain ⟨z, hz1, hz2⟩ := posCheck_true _ hpos
      cases serverOk with
      | false => exact Or.inl (by simpa [onAddIncome, hv] using hr)
      | true =>
        simp [onAddIncome, hv] at hr
        rcases hr with hr | hr
        · exact Or.inl hr
        · right
          subst hr
          simp only [hz1, Option.getD_some]
          exact_mod_cast hz2
  · intro fresh serverOk form st r hr
    by_cases hv : jsTrim form.date = "" ∨ posCheck (jsRound form.amount) = false
    · exact Or.inl (by simpa [onAddExpense, hv] using hr)
    · have hpos : posCheck (jsRound form.amount) = true := by
        rcases Bool.eq_false_or_eq_true (posCheck (jsRound form.amount)) with h | h
        · exact h
        · exact absurd (Or.inr h) hv
      obtain ⟨z, hz1, hz2⟩ := posCheck_true _ hpos
      cases serverOk with
      | false => exact Or.inl (by simpa [onAddExpense, hv] using hr)
      | true =>
        simp [onAddExpense, hv] at hr
        rcases hr with hr | hr
        · exact Or.inl hr
        · right
          subst hr
          simp only [hz1, Option.getD_some]
          exact_mod_cast hz2
  · intro freshI freshE parsed confirm st r hr
    cases parsed with
    | error msg => exact Or.inl (by simpa [onFilePicked] using hr)
    | ok obj =>
      cases hi : obj.income with
      | none =>
        cases he : obj.expenses with
        | none => exact Or.inl (by simpa [onFilePicked, hi, he] using hr)
        | some exps => exact Or.inl (by simpa [onFilePicked, hi, he] using hr)
      | some incs =>
        cases he : obj.expenses with
        | none => exact Or.inl (by simpa [onFilePicked, hi, he] using hr)
        | some exps =>
          cases confirm with
          | false => exact Or.inl (by simpa [onFilePicked, hi, he] using hr)
          | true =>
            right
            have hmem : r ∈ importIncomeList freshI 0 incs := by
              simpa [onFilePicked, hi, he] using hr
            exact importIncomeList_amount_nonneg freshI 0 incs r hmem
  · intro freshI freshE parsed confirm st r hr
    cases parsed with
    | error msg => exact Or.inl (by simpa [onFilePicked] using hr)
    | ok obj =>
      cases hi : obj.income with
      | none =>
        cases he : obj.expenses with
        | none => exact Or.inl (by simpa [onFilePicked, hi, he] using hr)
        | some exps => exact Or.inl (by simpa [onFilePicked, hi, he] using hr)
      | some incs =>
        cases he : obj.expenses with
        | none => exact Or.inl (by simpa [onFilePicked, hi, he] using hr)
        | some exps =>
          cases confirm with
          | false => exact Or.inl (by simpa [onFilePicked, hi, he] using hr)
          | true =>
            right
            have hmem : r ∈ importExpenseList freshE 0 exps := by
              simpa [onFilePicked, hi, he] using hr
            exact importExpenseList_amount_nonneg freshE 0 exps r hmem

/-- Witness for C9 as amended: a record imported with amount 7 lands in the
ledger with a non-negative amount. -/
theorem accepted_amount_spec_witness :
    (⟨"a", "2024-01-01", "x", max 0 (jsAmtOr0 (some 7)), ""⟩ : IncomeRow) ∈
        (⟨[], [], []⟩ : ClientState).income ∨
      0 ≤ (⟨"a", "2024-01-01", "x", max 0 (jsAmtOr0 (some 7)), ""⟩ : IncomeRow).amount :=
  accepted_amount_spec.2.2.1 (fun _ => "fi") (fun _ => "fe")
    (Except.ok (⟨none, none, none,
      some [⟨some "a", some "2024-01-01", none, some "x", some 7, none⟩],
      some [], none⟩ : ImportDoc))
    true ⟨[], [], []⟩
    ⟨"a", "2024-01-01", "x", max 0 (jsAmtOr0 (some 7)), ""⟩
    (by simp [onFilePicked, importIncomeList, importIncomeRec, jsStrOr])

lemma krwToUsd_pos_rate (krw q : ℚ) (hq : 0 < q) :
    krwToUsd krw (JsNum.fin q) = krw / q := by
  simp [krwToUsd, not_le.mpr hq]

/-- C10: every rate the in-app rate state can reach — starting from
useState(1388), adopting a stored rate only after the finite-and-positive
check, and adopting a fetched USD-per-KRW quote only after the same check
and inversion — is a finite number strictly greater than 0, so the
conversion of any amount at a reachable rate takes the dividing branch of
krwToUsd, never its zero-returning guard. -/
theorem rate_invariant (r : JsNum) (h : RateReachable r) :
    ∃ q : ℚ, r = JsNum.fin q ∧ 0 < q ∧ r.isFinite = true ∧
      ∀ krw : ℚ, krwToUsd krw r = krw / q := by
  induction h with
  | init =>
    exact ⟨1388, rfl, by norm_num, rfl,
      fun krw => krwToUsd_pos_rate krw 1388 (by norm_num)⟩
  | saved r stored hr ih =>
    obtain ⟨q, rfl, hq, _, _⟩ := ih
    cases stored with
    | none => exact ⟨q, rfl, hq, rfl, fun krw => krwToUsd_pos_rate krw q hq⟩
    | some p =>
      cases p with
      | fin s =>
        by_cases hs : s ≤ 0
        · exact ⟨q, by simp [applySavedRate, hs], hq,
            by simp [applySavedRate, hs, JsNum.isFinite],
            fun krw => by
              rw [show applySavedRate (JsNum.fin q) (some (JsNum.fin s)) = JsNum.fin q
                from by simp [applySavedRate, hs]]
              exact krwToUsd_pos_rate krw q hq⟩
        · have hpos : 0 < s := not_le.mp hs
          exact ⟨s, by simp [applySavedRate, hs], hpos,
            by simp [applySavedRate, hs, JsNum.isFinite],
            fun krw => by
              rw [show applySavedRate (JsNum.fin q) (some (JsNum.fin s)) = JsNum.fin s
                from by simp [applySavedRate, hs]]
              exact krwToUsd_pos_rate krw s hpos⟩
      | nan => exact ⟨q, rfl, hq, rfl, fun krw => krwToUsd_pos_rate krw q hq⟩
      | posInf => exact ⟨q, rfl, hq, rfl, fun krw => krwToUsd_pos_rate krw q hq⟩
      | negInf => exact ⟨q, rfl, hq, rfl, fun krw => krwToUsd_pos_rate krw q hq⟩
  | fetched r u hr ih =>
    obtain ⟨q, rfl, hq, _, _⟩ := ih
    cases u with
    | fin s =>
      by_cases hs : s ≤ 0
      · exact ⟨q, by simp [applyFetchedRate, hs], hq,
          by simp [applyFetchedRate, hs, JsNum.isFinite],
          fun krw => by
            rw [show applyFetchedRate (JsNum.fin q) (JsNum.fin s) = JsNum.fin q
              from by simp [applyFetchedRate, hs]]
            exact krwToUsd_pos_rate krw q hq⟩
      · have hposs : 0 < s := not_le.mp hs
        have hinv : 0 < (1 / s : ℚ) := by positivity
        exact ⟨1 / s, by simp [applyFetchedRate, hs], hinv,
          by simp [applyFetchedRate, hs, JsNum.isFinite],
          fun krw => by
            rw [show applyFetchedRate (JsNum.fin q) (JsNum.fin s) = JsNum.fin (1 / s)
              from by simp [applyFetchedRate, hs]]
            exact krwToUsd_pos_rate krw (1 / s) hinv⟩
    | nan => exact ⟨q, rfl, hq, rfl, fun krw => krwToUsd_pos_rate krw q hq⟩
    | posInf => exact ⟨q, rfl, hq, rfl, fun krw => krwToUsd_pos_rate krw q hq⟩
    | negInf => exact ⟨q, rfl, hq, rfl, fun krw => krwToUsd_pos_rate krw q hq⟩

/-- Witness for C10 at the initial rate 1388. -/
theorem rate_invariant_witness :
    ∃ q : ℚ, JsNum.fin 1388 = JsNum.fin q ∧ 0 < q ∧
      (JsNum.fin 1388).isFinite = true ∧
      ∀ krw : ℚ, krwToUsd krw (JsNum.fin 1388) = krw / q :=
  rate_invariant (JsNum.fin 1388) RateReachable.init

end Budget
